import Mathlib

/-!
Verification of the core result-merging pipeline of the genetics-results-api
service, against its natural-language specification.

The development shallowly embeds the relevant Python sources:

* `app/services/datafetch_single_resource.py` — per-resource row parsing,
  variant filtering, placeholder injection (`DatafetchSingleResource`);
* `app/services/datafetch.py` — concurrent fan-out over resources, failure
  isolation, per-variant merge and significance sort (`Datafetch._fetch`);
* `app/services/gnomad.py` — gnomAD frequency fetch, found/not-found variant
  bookkeeping (`GnomAD._fetch`);
* `app/server.py` — the `/results` variant-list endpoint assembly, the
  gene-range endpoints `gene_model_by_gene` and `gene_cs`, and `gene_results`;
* `app/core/cache.py` — disk cache keying, get/set, LRU-style eviction;
* `app/services/request_util.py` — gene-range resolution and tabix streaming.

Machine floats are modelled by an arbitrary linear ordered field `K`
(instantiated at `ℚ` for executable witnesses and at `ℝ` for the numeric
significance-fallback analysis).  Tab-separated source rows are modelled as
structures whose fields are the columns the code reads; the external tabix
process is modelled by its decoded output (a row list plus stderr text and
return code).  `Variant` itself lives in `app/core/variant.py`, which is not
part of the sources under review, so it is modelled from the spec.
-/

open MeasureTheory Set Filter

set_option maxHeartbeats 1000000

/-- Modelled from the spec (section 4.1): `app/core/variant.py` is not among the
reviewed sources.  A variant is the canonical (chromosome, position, reference
allele, alternate allele) join key; equality is exact on all four fields and the
canonical string form is `chr:pos:ref:alt`. -/
structure Variant where
  chr : String
  pos : Nat
  ref : String
  alt : String
deriving DecidableEq

/-- Modelled from the spec (section 4.1): canonical string form of a variant,
the universal join key (`str(variant)` in the sources). -/
def Variant.render (v : Variant) : String :=
  v.chr ++ ":" ++ toString v.pos ++ ":" ++ v.ref ++ ":" ++ v.alt

/-- A parsed floating-point column that may hold the missing-significance
sentinel: `float(...)` in `_parse_assoc_row` yields `inf` exactly when the
`mlog10p` column holds the sentinel value. -/
inductive FNum (K : Type) where
  | num (x : K)
  | inf
deriving DecidableEq

/-- One association row as read by `DatafetchSingleResource._parse_assoc_row`
(datafetch_single_resource.py, lines 60-104): the columns the code consumes.
`beta = none` encodes the literal `NA` in the beta column, which the code
tests before any numeric conversion. -/
structure AssocRow (K : Type) where
  chr : String
  pos : Nat
  ref : String
  alt : String
  dataset : String
  data_type : String
  trait : String
  beta : Option K
  se : K
  mlog10p : FNum K
deriving DecidableEq

/-- Static description of one association resource (an entry of
`assoc_files` in the configuration): its id and optional ignore list
(`ignore_phenos`). -/
structure AssocResource where
  resource : String
  ignore_phenos : Option (List String)
deriving DecidableEq

/-- One normalized association record, the dictionary built by
`_parse_assoc_row`.  Placeholder records (lines 193-205) carry no `variant`
and no `ld` key, hence the `Option` types. -/
structure AssocRecord (K : Type) where
  variant : Option String
  ld : Option Bool
  resource : String
  dataset : String
  data_type : String
  phenocode : String
  mlog10p : K
  beta : K
  sebeta : K
deriving DecidableEq

/-- The variant encoded in an association row's four leading columns
(`Variant(f-string of chr, pos, ref, alt)` at lines 64-66). -/
def assocRowVariant {K : Type} (row : AssocRow K) : Variant :=
  ⟨row.chr, row.pos, row.ref, row.alt⟩

/-- Whether the row's trait is on the resource's ignore list
(`"ignore_phenos" not in resource or trait not in resource["ignore_phenos"]`,
negated). -/
def assocIgnored (res : AssocResource) (trait : String) : Bool :=
  match res.ignore_phenos with
  | some ign => decide (trait ∈ ign)
  | none => false

/-- Embedding of `_parse_assoc_row` minus the leading variant filter: applied
once the row's variant passed (or was exempt from) the requested-variant
check.  `fb` is the missing-significance fallback the code computes with
`scipy.stats.norm.logsf`; it is a parameter so the structural development can
run over `ℚ` while the numeric claim instantiates it over `ℝ`. -/
def parseAssocRowKept {K : Type} [LinearOrderedField K] (fb : K → K → K)
    (res : AssocResource) (row : AssocRow K) : Option (AssocRecord K) :=
  match row.beta with
  | none => none
  | some b =>
    if assocIgnored res row.trait then none
    else
      some
        { variant := some (assocRowVariant row).render
          ld := some false
          resource := res.resource
          dataset := row.dataset
          data_type := row.data_type
          phenocode :=
            if row.data_type ≠ "sQTL" then row.trait
            else row.dataset ++ ":" ++ row.trait
          mlog10p :=
            match row.mlog10p with
            | FNum.num x => x
            | FNum.inf => fb b row.se
          beta := b
          sebeta := row.se }

/-- Embedding of `_parse_assoc_row` (lines 60-104).  The requested-variant
filter (`variants is not None and variant not in variants`, line 67) runs
first; in range mode (`variants = none`) every row proceeds. -/
def parseAssocRow {K : Type} [LinearOrderedField K] (fb : K → K → K)
    (res : AssocResource) (variants : Option (List Variant))
    (row : AssocRow K) : Option (AssocRecord K) :=
  match variants with
  | some vs =>
    if assocRowVariant row ∈ vs then parseAssocRowKept fb res row else none
  | none => parseAssocRowKept fb res row

/-- Records kept after row parsing, in row order (the accumulation loop at
lines 181-189 of `_fetch`). -/
def assocKept {K : Type} [LinearOrderedField K] (fb : K → K → K)
    (res : AssocResource) (rows : List (AssocRow K))
    (variants : Option (List Variant)) : List (AssocRecord K) :=
  rows.filterMap (parseAssocRow fb res variants)

/-- The per-variant bucket of real records (`results[result["variant"]]`
accumulated in row order). -/
def assocRealFor {K : Type} [LinearOrderedField K] (fb : K → K → K)
    (res : AssocResource) (rows : List (AssocRow K))
    (variants : Option (List Variant)) (v : String) : List (AssocRecord K) :=
  (assocKept fb res rows variants).filter (fun r => decide (r.variant = some v))

/-- The placeholder record appended per variant key of a resource's result
dictionary (lines 193-205): sentinel `NA` dataset, data type and phenocode,
significance −1, no `variant` and no `ld` key. -/
def assocPlaceholder {K : Type} [LinearOrderedField K]
    (rid : String) : AssocRecord K :=
  { variant := none
    ld := none
    resource := rid
    dataset := "NA"
    data_type := "NA"
    phenocode := "NA"
    mlog10p := -1
    beta := 0
    sebeta := 0 }

/-- The entry list a single resource produces for variant `v`: its kept real
records followed by one placeholder, or nothing at all when no row for `v`
survived parsing (then `v` is not a key of `results`; the placeholder loop
`for variant in results` at lines 190-206 only visits existing keys). -/
def assocEntriesFor {K : Type} [LinearOrderedField K] (fb : K → K → K)
    (res : AssocResource) (rows : List (AssocRow K))
    (variants : Option (List Variant)) (v : String) : List (AssocRecord K) :=
  let real := assocRealFor fb res rows variants v
  if real = [] then [] else real ++ [assocPlaceholder res.resource]

/-- The keys of a single resource's result dictionary, in first-appearance
order. -/
def assocKeys {K : Type} [LinearOrderedField K] (fb : K → K → K)
    (res : AssocResource) (rows : List (AssocRow K))
    (variants : Option (List Variant)) : List String :=
  ((assocKept fb res rows variants).filterMap (fun r => r.variant)).dedup

/-- The full result dictionary returned by `DatafetchSingleResource._fetch`
for the association category, as an insertion-ordered association list. -/
def assocFetchDict {K : Type} [LinearOrderedField K] (fb : K → K → K)
    (res : AssocResource) (rows : List (AssocRow K))
    (variants : Option (List Variant)) :
    List (String × List (AssocRecord K)) :=
  (assocKeys fb res rows variants).map
    (fun v => (v, assocEntriesFor fb res rows variants v))

/-- Dictionary lookup returning the stored bucket, or the empty bucket when
the key is absent (a variant never extends `combined_results[variant]` from a
resource whose dictionary lacks it). -/
def dictGet {α : Type} (v : String) : List (String × List α) → List α
  | [] => []
  | p :: rest => if p.1 = v then p.2 else dictGet v rest

/-- The non-exception elements of `asyncio.gather(..., return_exceptions=True)`:
`Datafetch._fetch` (datafetch.py, lines 56-66) logs and skips every `Exception`
element and merges the rest. -/
def successResults {α : Type} (outcomes : List (Except String α)) : List α :=
  outcomes.filterMap
    (fun o => match o with
      | Except.ok m => some m
      | Except.error _ => none)

/-- The pre-sort merged bucket for variant `v`
(`combined_results[variant].extend(variant_results)` over the task results in
task order, lines 61-71). -/
def combinedAssoc {K : Type} [LinearOrderedField K]
    (outcomes : List (Except String (List (String × List (AssocRecord K)))))
    (v : String) : List (AssocRecord K) :=
  ((successResults outcomes).map (dictGet v)).flatten

/-- The ascending sort order used by `Datafetch._fetch` for association
buckets: Python sorts with key `-mlog10p` (association records always carry a
numeric `mlog10p`, so the `"NA"` branch of the key is inert here). -/
def assocLe {K : Type} [LinearOrderedField K]
    (a b : AssocRecord K) : Prop :=
  -a.mlog10p ≤ -b.mlog10p

instance {K : Type} [LinearOrderedField K] :
    DecidableRel (assocLe (K := K)) :=
  fun a b => inferInstanceAs (Decidable (_ ≤ _))

instance {K : Type} [LinearOrderedField K] :
    IsTotal (AssocRecord K) (assocLe (K := K)) :=
  ⟨fun a b => le_total _ _⟩

instance {K : Type} [LinearOrderedField K] :
    IsTrans (AssocRecord K) (assocLe (K := K)) :=
  ⟨fun _ _ _ hab hbc => le_trans hab hbc⟩

/-- Stable sort by ascending `-mlog10p`, i.e. descending significance —
`sorted(combined_results[variant], key=...)` at lines 73-79 (Python's sort is
stable; ties are unspecified by the spec). -/
def sortAssoc {K : Type} [LinearOrderedField K]
    (l : List (AssocRecord K)) : List (AssocRecord K) :=
  List.insertionSort (assocLe (K := K)) l

/-- The merged, sorted bucket `Datafetch._fetch` returns for variant `v`.
Variants absent from every per-resource dictionary have the empty bucket, and
sorting the empty bucket is the identity, so the definition agrees with the
code also off `variants_used`. -/
def mergedAssoc {K : Type} [LinearOrderedField K]
    (outcomes : List (Except String (List (String × List (AssocRecord K)))))
    (v : String) : List (AssocRecord K) :=
  sortAssoc (combinedAssoc outcomes v)

/-- The composite association pipeline: each configured resource parses its
tabix rows and builds its dictionary (`DatafetchSingleResource._fetch`), all
dictionaries are merged and sorted (`Datafetch._fetch`). -/
def assocPipeline {K : Type} [LinearOrderedField K] (fb : K → K → K)
    (resources : List (AssocResource × List (AssocRow K)))
    (variants : Option (List Variant)) (v : String) : List (AssocRecord K) :=
  mergedAssoc
    (resources.map (fun p => Except.ok (assocFetchDict fb p.1 p.2 variants)))
    v

/-- One fine-mapping row as read by
`DatafetchSingleResource._parse_finemapped_row` (lines 106-150).
`method = none` encodes a file whose header has no `method` column; optional
numeric columns use `none` for the literal `NA`. -/
structure FineRow (K : Type) where
  chr : String
  pos : Nat
  ref : String
  alt : String
  resource : String
  method : Option String
  dataset : String
  data_type : String
  trait : String
  mlog10p : Option K
  beta : Option K
  se : Option K
  pip : K
  cs_size : Option Int
  cs_min_r2 : Option K
deriving DecidableEq

/-- Static description of one fine-mapping resource (an entry of
`finemapped_files`). -/
structure FineResource where
  resource : String
  ignore_phenos : Option (List String)
deriving DecidableEq

/-- One normalized fine-mapping record, the dictionary built by
`_parse_finemapped_row`. -/
structure FineRecord (K : Type) where
  variant : String
  resource : String
  dataset : String
  data_type : String
  phenocode : String
  mlog10p : Option K
  beta : Option K
  se : Option K
  pip : K
  cs_size : Option Int
  cs_min_r2 : Option K
deriving DecidableEq

/-- The variant encoded in a fine-mapping row's leading columns. -/
def fineRowVariant {K : Type} (row : FineRow K) : Variant :=
  ⟨row.chr, row.pos, row.ref, row.alt⟩

/-- Whether the row's trait is on the fine-mapping resource's ignore list. -/
def fineIgnored (res : FineResource) (trait : String) : Bool :=
  match res.ignore_phenos with
  | some ign => decide (trait ∈ ign)
  | none => false

/-- Embedding of `_parse_finemapped_row` (lines 106-150).  The row is kept
when the file has no `method` column or the row's method is `SuSiE-inf`, and
the trait is not ignored.  `gwas` is normalized to `GWAS`, a `FinnGen_drugs`
dataset overrides the row's resource id, and `sQTL` phenocodes are prefixed
with the dataset.  Note: unlike `_parse_assoc_row`, this parser receives no
requested-variant list and performs no variant filtering. -/
def parseFinemappedRow {K : Type} (res : FineResource)
    (row : FineRow K) : Option (FineRecord K) :=
  if (row.method = none ∨ row.method = some "SuSiE-inf") ∧
      fineIgnored res row.trait = false then
    let dt := if row.data_type = "gwas" then "GWAS" else row.data_type
    some
      { variant := (fineRowVariant row).render
        resource :=
          if row.dataset = "FinnGen_drugs" then "FinnGen_drugs"
          else row.resource
        dataset := row.dataset
        data_type := dt
        phenocode :=
          if dt ≠ "sQTL" then row.trait else row.dataset ++ ":" ++ row.trait
        mlog10p := row.mlog10p
        beta := row.beta
        se := row.se
        pip := row.pip
        cs_size := row.cs_size
        cs_min_r2 := row.cs_min_r2 }
  else none

/-- Fine-mapping records kept after row parsing, in row order. -/
def fineKept {K : Type} (res : FineResource) (rows : List (FineRow K)) :
    List (FineRecord K) :=
  rows.filterMap (parseFinemappedRow res)

/-- The per-variant bucket of fine-mapping records. -/
def fineRealFor {K : Type} (res : FineResource) (rows : List (FineRow K))
    (v : String) : List (FineRecord K) :=
  (fineKept res rows).filter (fun r => decide (r.variant = v))

/-- The result dictionary `DatafetchSingleResource._fetch` builds in the
fine-mapping branch: keyed by each kept row's own variant, and — unlike the
association branch — with no placeholder records appended. -/
def fineFetchDict {K : Type} (res : FineResource) (rows : List (FineRow K)) :
    List (String × List (FineRecord K)) :=
  (((fineKept res rows).map (fun r => r.variant)).dedup).map
    (fun v => (v, fineRealFor res rows v))

/-- Embedding of `fetch_variants` for the fine-mapping category (lines
210-218 with `resource_type = "finemapped"`).  The requested variants shape
only the tabix query ranges; `_parse_finemapped_row` never consults them, so
the argument is unused past query construction. -/
def fineFetchVariants {K : Type} (res : FineResource)
    (rows : List (FineRow K)) (variants : List Variant) :
    List (String × List (FineRecord K)) :=
  let _ := variants
  fineFetchDict res rows

/-- An ASCII uppercase map mirroring Python's `str.upper()` on the
identifiers that occur in this code base (gene symbols, gene names). -/
def pyUpper (s : String) : String :=
  String.mk (s.data.map Char.toUpper)

/-- Lexicographic code-point comparison of character lists, mirroring
Python's string ordering. -/
def charListLe : List Char → List Char → Bool
  | [], _ => true
  | _ :: _, [] => false
  | a :: as, b :: bs =>
    if a.toNat < b.toNat then true
    else if b.toNat < a.toNat then false
    else charListLe as bs

/-- Python's string less-or-equal (code-point lexicographic). -/
def pyStrLe (a b : String) : Bool :=
  charListLe a.data b.data

/-- The sorted key iteration `sorted(gnomad_data["data"])` of the `/results`
endpoint (server.py, line 526). -/
def sortStrings (l : List String) : List String :=
  List.insertionSort (fun a b => pyStrLe a b = true) l

/-- One gnomAD row as consumed by `GnomAD._fetch` (gnomad.py, lines 69-103):
the variant columns, the exomes/genomes marker, and the gene column used in
range mode.  The remaining per-population payload is irrelevant to the claims
under review and is carried opaquely by keeping the whole row in the entry. -/
structure GnomadRow where
  chr : String
  pos : Nat
  ref : String
  alt : String
  genome_or_exome : String
  gene_most_severe : String
deriving DecidableEq

/-- The variant encoded in a gnomAD row. -/
def gnomadRowVariant (r : GnomadRow) : Variant :=
  ⟨r.chr, r.pos, r.ref, r.alt⟩

/-- The row filter of `GnomAD._fetch` (lines 74-83): in variant-list mode the
row's variant must be requested; in range mode the row's gene must match the
requested gene case-insensitively. -/
def gnomadRowKeep (variants : Option (List Variant)) (gene : Option String)
    (r : GnomadRow) : Bool :=
  (match variants with
    | some vs => decide (gnomadRowVariant r ∈ vs)
    | none => true) &&
  (match gene with
    | some g => decide (pyUpper r.gene_most_severe = pyUpper g)
    | none => true)

/-- The exomes/genomes pair stored per variant key
(`dd(lambda: {"exomes": None, "genomes": None})`). -/
structure GnomadEntry where
  exomes : Option GnomadRow
  genomes : Option GnomadRow
deriving DecidableEq

/-- The entry before any row was folded in. -/
def emptyGnomadEntry : GnomadEntry :=
  ⟨none, none⟩

/-- Folding one kept row into a variant's entry (lines 86-89): rows marked
`e` set the exomes slot, rows marked `g` the genomes slot; the key itself is
created for every kept row because the AC0 bookkeeping at lines 90-103
accesses the defaultdict entry unconditionally. -/
def updGnomadEntry (e : GnomadEntry) (r : GnomadRow) : GnomadEntry :=
  if r.genome_or_exome = "e" then { e with exomes := some r }
  else if r.genome_or_exome = "g" then { e with genomes := some r }
  else e

/-- Insert-or-update of the insertion-ordered per-variant dictionary. -/
def gnomadInsertRow (rows : List (String × GnomadEntry)) (k : String)
    (r : GnomadRow) : List (String × GnomadEntry) :=
  match rows with
  | [] => [(k, updGnomadEntry emptyGnomadEntry r)]
  | p :: rest =>
    if p.1 = k then (k, updGnomadEntry p.2 r) :: rest
    else p :: gnomadInsertRow rest k r

/-- The per-variant gnomAD dictionary built from the kept rows in row
order. -/
def gnomadData (kept : List GnomadRow) : List (String × GnomadEntry) :=
  kept.foldl (fun acc r => gnomadInsertRow acc (gnomadRowVariant r).render r) []

/-- Failure modes of `GnomAD._fetch`: a `DataException` carrying the tabix
message, or `VariantNotFoundException`. -/
inductive GnomadErr where
  | dataError (msg : String)
  | variantNotFound
deriving DecidableEq

/-- The successful result of `GnomAD._fetch`: the found-variant list and the
per-variant data dictionary.  The AC0 list and the frequency summary are
additional outputs not consulted by the claims under review and are omitted
from the model. -/
structure GnomadOut where
  found_variants : List String
  data : List (String × GnomadEntry)
deriving DecidableEq

/-- Embedding of the row-processing core of `GnomAD._fetch` (lines 62-107)
on the decoded tabix output: an empty tabix result raises
`VariantNotFoundException` (line 62-63), rows failing the variant/gene filter
are skipped, and if no variant was found the same exception is raised (lines
105-106). -/
def gnomadFetchRows (rows : List GnomadRow) (variants : Option (List Variant))
    (gene : Option String) : Except GnomadErr GnomadOut :=
  if rows = [] then Except.error GnomadErr.variantNotFound
  else
    let kept := rows.filter (gnomadRowKeep variants gene)
    let found := (kept.map (fun r => (gnomadRowVariant r).render)).dedup
    if found = [] then Except.error GnomadErr.variantNotFound
    else Except.ok ⟨found, gnomadData kept⟩

/-- Lookup of a variant's gnomAD entry in the endpoint assembly
(`gnomad_data["data"][variant_str]`; the key always exists there because the
iteration runs over the dictionary's own keys). -/
def gnomadGet (v : String) : List (String × GnomadEntry) → GnomadEntry
  | [] => emptyGnomadEntry
  | p :: rest => if p.1 = v then p.2 else gnomadGet v rest

/-- One element of the `/results` endpoint's `data` array (server.py, lines
540-562): the variant, its gnomAD entry, its merged association bucket
(association plus LD-association records re-sorted by descending
significance), and its fine-mapping bucket. -/
structure VariantBlock (K : Type) where
  variant : String
  gnomad : GnomadEntry
  assoc : List (AssocRecord K)
  finemapped : List (FineRecord K)
deriving DecidableEq

/-- The `data` array assembly of the `/results` endpoint (lines 523-562):
one block per key of the gnomAD data dictionary, iterated in sorted string
order; association and fine-mapping buckets are looked up by the same variant
key and default to empty. -/
def resultsDataArray {K : Type} [LinearOrderedField K] (g : GnomadOut)
    (assocData ldData : List (String × List (AssocRecord K)))
    (fineData : List (String × List (FineRecord K))) : List (VariantBlock K) :=
  (sortStrings (g.data.map Prod.fst)).map
    (fun v =>
      { variant := v
        gnomad := gnomadGet v g.data
        assoc := sortAssoc (dictGet v assocData ++ dictGet v ldData)
        finemapped := dictGet v fineData })

/-- The `not_found` input-variant list of the response (lines 615-618):
requested variant strings minus the found set. -/
def notFoundList (g : GnomadOut) (inputVars : List String) : List String :=
  inputVars.filter (fun v => decide (¬ v ∈ g.found_variants))

/-- The response fragment of the `/results` variant-list endpoint relevant to
the claims: the data array and the found / not-found input-variant lists. -/
structure ResultsReply (K : Type) where
  data : List (VariantBlock K)
  found : List String
  not_found : List String
deriving DecidableEq

/-- The `/results` variant-list flow (lines 510-515 and 523-562,612-622):
the gnomAD fetch feeds the data array; a `VariantNotFoundException` (or any
gnomAD failure) propagates out of the endpoint uncaught. -/
def resultsVariantMode {K : Type} [LinearOrderedField K]
    (gnomadRows : List GnomadRow) (requested : List Variant)
    (assocData ldData : List (String × List (AssocRecord K)))
    (fineData : List (String × List (FineRecord K))) :
    Except GnomadErr (ResultsReply K) :=
  match gnomadFetchRows gnomadRows (some requested) none with
  | Except.error e => Except.error e
  | Except.ok g =>
    Except.ok
      { data := resultsDataArray g assocData ldData fineData
        found := g.found_variants
        not_found := notFoundList g (requested.map Variant.render) }

/-- The data-file configuration consumed by `DiskCache._get_cache_key`
(cache.py, lines 24-32): the gnomAD file, the association files, the
fine-mapping files — and, consumed by `LDDatafetch` but absent from the key,
the LD-association file (`config["ld_assoc"]["file"]`). -/
structure CacheConfig where
  gnomadFile : String
  assocFiles : List String
  finemappedFiles : List String
  ldAssocFile : String
deriving DecidableEq

/-- Embedding of `DiskCache._get_cache_key`: the key parts are the operation
name, the gnomAD file, every association file, every fine-mapping file, and
the stringified arguments, joined with a bar.  The MD5 digest of the joined
string is modelled by the joined string itself: equal part lists give equal
digests, which is the only property the claims use. -/
def cacheKey (cfg : CacheConfig) (funcName : String)
    (args : List String) : String :=
  String.intercalate "|"
    ([funcName, cfg.gnomadFile] ++ cfg.assocFiles ++ cfg.finemappedFiles ++ args)

/-- Association-list lookup, modelling a keyed file store or dictionary. -/
def alookup {π : Type} (k : String) : List (String × π) → Option π
  | [] => none
  | p :: rest => if p.1 = k then some p.2 else alookup k rest

/-- Writing a keyed entry: the new binding shadows any previous one, as a
file write to the same cache path overwrites it. -/
def storeInsert {π : Type} (σ : List (String × π)) (k : String) (v : π) :
    List (String × π) :=
  (k, v) :: σ

/-- Cache read for a given operation and arguments (`DiskCache.get`,
key-construction part): look the derived key up in the store. -/
def diskCacheGetRaw {π : Type} (σ : List (String × π)) (cfg : CacheConfig)
    (funcName : String) (args : List String) : Option π :=
  alookup (cacheKey cfg funcName args) σ

/-- Cache write for a given operation and arguments (`DiskCache.set`,
key-construction part). -/
def diskCacheSetRaw {π : Type} (σ : List (String × π)) (cfg : CacheConfig)
    (funcName : String) (args : List String) (v : π) : List (String × π) :=
  storeInsert σ (cacheKey cfg funcName args) v

/-- One cache file on disk: its name, byte size, and modification time.
`DiskCache.get` touches the file on every read and `DiskCache.set` rewrites
it, so the modification time is the last-access time. -/
structure CacheFile where
  name : String
  size : Nat
  mtime : Nat
deriving DecidableEq

/-- Total byte size of the cache directory (`DiskCache._get_cache_size`). -/
def totalSize (files : List CacheFile) : Nat :=
  (files.map (fun f => f.size)).sum

/-- Sorting order by modification time used by eviction
(`sorted(..., key=lambda x: x.stat().st_mtime)`, cache.py line 51-53). -/
def mtimeLe (a b : CacheFile) : Prop :=
  a.mtime ≤ b.mtime

instance : DecidableRel mtimeLe :=
  fun a b => inferInstanceAs (Decidable (_ ≤ _))

instance : IsTotal CacheFile mtimeLe :=
  ⟨fun a b => Nat.le_total a.mtime b.mtime⟩

instance : IsTrans CacheFile mtimeLe :=
  ⟨fun _ _ _ hab hbc => le_trans hab hbc⟩

/-- Cache files sorted oldest-first by modification time. -/
def sortByMtime (files : List CacheFile) : List CacheFile :=
  List.insertionSort mtimeLe files

/-- The deletion loop of `DiskCache._ensure_cache_size` (lines 55-64): walk
the files oldest-first, stopping as soon as the running size is within
budget, deleting otherwise.  `cur` is the running `current_size`. -/
def evictLoop (budget : Nat) : Nat → List CacheFile → List CacheFile
  | _, [] => []
  | cur, f :: rest =>
    if cur ≤ budget then f :: rest
    else evictLoop budget (cur - f.size) rest

/-- Embedding of `DiskCache._ensure_cache_size` (lines 45-64): an early
return when already within budget, otherwise the oldest-first deletion
loop. -/
def ensureCacheSize (budget : Nat) (files : List CacheFile) :
    List CacheFile :=
  if totalSize files ≤ budget then files
  else evictLoop budget (totalSize files) (sortByMtime files)

/-- Writing a cache file: a same-named file is overwritten, then the new
file is appended (its write makes it the newest). -/
def cacheWrite (files : List CacheFile) (new : CacheFile) :
    List CacheFile :=
  (files.filter (fun f => decide (f.name ≠ new.name))) ++ [new]

/-- Embedding of `DiskCache.set` at the directory level (lines 81-92): write
the entry, then restore the size bound. -/
def diskCacheSetFile (budget : Nat) (files : List CacheFile)
    (new : CacheFile) : List CacheFile :=
  ensureCacheSize budget (cacheWrite files new)

/-- A decoded JSON payload: `null` or a real value (`json.load` maps the
stored literal `null` to Python `None`). -/
inductive JsonVal (V : Type) where
  | null
  | val (v : V)
deriving DecidableEq

/-- What a stored cache file can decode to: garbage
(`json.JSONDecodeError` / `IOError`) or a JSON payload. -/
inductive StoredEntry (V : Type) where
  | undecodable
  | content (j : JsonVal V)
deriving DecidableEq

/-- Embedding of `DiskCache.get` (cache.py, lines 66-79): a missing path, an
unreadable or undecodable file, and a stored JSON `null` all come back as
Python `None`; only a stored non-null payload is a hit.  The function never
raises: both failure branches return `None`. -/
def diskCacheGetJson {V : Type} (σ : List (String × StoredEntry V))
    (k : String) : Option V :=
  match alookup k σ with
  | none => none
  | some StoredEntry.undecodable => none
  | some (StoredEntry.content JsonVal.null) => none
  | some (StoredEntry.content (JsonVal.val v)) => some v

/-- Embedding of `DiskCache.set` at the payload level: store the serialized
result under the key. -/
def diskCacheSetJson {V : Type} (σ : List (String × StoredEntry V))
    (k : String) (j : JsonVal V) : List (String × StoredEntry V) :=
  storeInsert σ k (StoredEntry.content j)

/-- Embedding of the decorator wrapper of `create_cached_decorator`
(cache.py, lines 104-110): return the cached value when `get` produced a
non-`None` result, otherwise run the wrapped operation and store its
result. -/
def cachedCall {V : Type} (σ : List (String × StoredEntry V)) (k : String)
    (f : Unit → JsonVal V) : JsonVal V × List (String × StoredEntry V) :=
  match diskCacheGetJson σ k with
  | some v => (JsonVal.val v, σ)
  | none =>
    let r := f ()
    (r, diskCacheSetJson σ k r)

/-- The gene-range table of `RequestUtil` (request_util.py, lines 25-34):
symbol → (chromosome, start, end), keys uppercased at construction. -/
def mkGeneTable (entries : List (String × String × Int × Int)) :
    List (String × (String × Int × Int)) :=
  entries.map (fun e => (pyUpper e.1, e.2))

/-- Embedding of `RequestUtil.get_gene_range` (lines 36-42): uppercase the
query, look it up, raise `GeneNotFoundException` when absent. -/
def getGeneRange (table : List (String × (String × Int × Int)))
    (gene : String) : Except String (String × Int × Int) :=
  match alookup (pyUpper gene) table with
  | some r => Except.ok r
  | none => Except.error ("Gene " ++ gene ++ " not found")

/-- Observable outcome of a gene-range endpoint: a 400 rejection, a 404
not-found, or a tabix range query against a data file. -/
inductive GeneEndpointResult where
  | badRequest (msg : String)
  | notFound (msg : String)
  | tabixStream (file : String) (chr : String) (start stop : Int)
deriving DecidableEq

/-- Embedding of the `gene_model_by_gene` endpoint (server.py, lines
198-212): negative padding is rejected with a 400 before the gene is even
resolved; a known gene streams the padded interval, an unknown gene yields a
404.  The handler uppercases the path parameter before resolution. -/
def geneModelByGene (table : List (String × (String × Int × Int)))
    (modelFile : String) (gene : String) (padding : Int) :
    GeneEndpointResult :=
  if padding < 0 then GeneEndpointResult.badRequest "padding must be non-negative"
  else
    match getGeneRange table (pyUpper gene) with
    | Except.error msg => GeneEndpointResult.notFound msg
    | Except.ok (chr, s, e) =>
      GeneEndpointResult.tabixStream modelFile chr (s - padding) (e + padding)

/-- Embedding of the `gene_cs` endpoint (server.py, lines 215-226): the
padded interval is streamed for a known gene and an unknown gene yields a
404 — but, unlike `gene_model_by_gene`, the padding is never validated. -/
def geneCs (table : List (String × (String × Int × Int)))
    (csFile : String) (gene : String) (padding : Int) : GeneEndpointResult :=
  match getGeneRange table (pyUpper gene) with
  | Except.error msg => GeneEndpointResult.notFound msg
  | Except.ok (chr, s, e) =>
    GeneEndpointResult.tabixStream csFile chr (s - padding) (e + padding)

/-- A completed run of the external tabix process as the fetch code observes
it: decoded output rows, stderr text, and return code. -/
structure TabixRun (ρ : Type) where
  rows : List ρ
  stderr : String
  returncode : Int
deriving DecidableEq

/-- The failure test of `DatafetchSingleResource._fetch` (line 173):
`process.returncode != 0 or stderr`. -/
def tabixFailed {ρ : Type} (t : TabixRun ρ) : Bool :=
  decide (t.returncode ≠ 0) || decide (t.stderr ≠ "")

/-- The `DataException` message raised on tabix failure (lines 173-176): the
raw stderr text when present, otherwise a fixed message. -/
def tabixErrMsg {ρ : Type} (t : TabixRun ρ) : String :=
  if t.stderr ≠ "" then t.stderr else "Non-zero return code from tabix"

/-- Embedding of `DatafetchSingleResource._fetch` for the association
category including its tabix failure path: a failed run raises a
`DataException` carrying the tool message, a successful run parses the rows
and builds the result dictionary. -/
def singleResourceFetchAssoc {K : Type} [LinearOrderedField K] (fb : K → K → K)
    (res : AssocResource) (variants : Option (List Variant))
    (t : TabixRun (AssocRow K)) :
    Except String (List (String × List (AssocRecord K))) :=
  if tabixFailed t then Except.error (tabixErrMsg t)
  else Except.ok (assocFetchDict fb res t.rows variants)

/-- Pairwise relation between two fan-out outcome lists that agree on every
success and may differ arbitrarily inside failures (in particular in
whatever stderr text the failures carry). -/
def sameSuccess {α : Type} (a b : Except String α) : Prop :=
  match a, b with
  | Except.ok x, Except.ok y => x = y
  | Except.error _, Except.error _ => True
  | _, _ => False

/-- The byte stream produced by `stream_tabix_response` / the streaming
annotation endpoints (request_util.py lines 106-135, server.py lines
377-413): the process chunks followed, on a nonzero exit, by the fixed
failure marker.  The stderr text is only logged; it is an argument here
precisely to state that the output does not depend on it. -/
def streamTabixOutput (chunks : List String) (returncode : Int)
    (stderrText : String) : List String :=
  let _ := stderrText
  chunks ++ (if returncode ≠ 0 then ["!error: failed to read"] else [])

/-- What the HTTP caller of `gene_results` can observe for a given gnomAD
fetch outcome. -/
inductive GeneReplyModel where
  | notFoundMsg (msg : String)
  | okReply
  | genericServerError
deriving DecidableEq

/-- The error flow of `gene_results` (server.py, lines 655-671) for the
gnomAD fetch: `VariantNotFoundException` is caught and answered with a fixed
message naming only the gene; any other fetch exception leaves the handler
uncaught.  Modelled from the spec (section 7): the surrounding HTTP boundary
(an external collaborator) reports uncaught failures generically, without
the exception text. -/
def geneResultsReply (gene : String)
    (gnomadOutcome : Except GnomadErr GnomadOut) : GeneReplyModel :=
  match gnomadOutcome with
  | Except.error GnomadErr.variantNotFound =>
    GeneReplyModel.notFoundMsg ("No variants found for gene " ++ gene)
  | Except.error (GnomadErr.dataError _) => GeneReplyModel.genericServerError
  | Except.ok _ => GeneReplyModel.okReply

/-- The unnormalized Gaussian tail integral from `a` to infinity. -/
noncomputable def gaussTail (a : ℝ) : ℝ :=
  ∫ t in Ioi a, Real.exp (-(t^2)/2)

/-- The standard normal survival function, scipy's `norm.sf`:
the integral of the standard normal density over the upper tail. -/
noncomputable def normSF (z : ℝ) : ℝ :=
  ∫ t in Ioi z, Real.exp (-(t^2)/2) / Real.sqrt (2*Real.pi)

/-- The missing-significance fallback of `_parse_assoc_row` (lines 86-89)
over the reals:
`-sp.stats.norm.logsf(abs(beta) / sebeta) / math.log(10) - math.log10(2)`,
with `norm.logsf` the logarithm of the standard normal survival function. -/
noncomputable def assocMlog10pFallback (beta sebeta : ℝ) : ℝ :=
  -(Real.log (normSF (|beta| / sebeta))) / Real.log 10 - Real.logb 10 2

theorem dictGet_map_keys {α : Type} (g : String → List α) (v : String) :
    ∀ ks : List String,
      dictGet v (ks.map (fun k => (k, g k))) = if v ∈ ks then g v else []
  | [] => by simp [dictGet]
  | k :: ks => by
    by_cases h : k = v
    · subst h
      simp [dictGet]
    · have ih := dictGet_map_keys g v ks
      simp only [List.map_cons, dictGet, ih, List.mem_cons]
      rw [if_neg h]
      by_cases hv : v ∈ ks
      · rw [if_pos hv, if_pos (Or.inr hv)]
      · rw [if_neg hv, if_neg]
        rintro (rfl | hc)
        · exact h rfl
        · exact hv hc

theorem parseAssocRowKept_variant {K : Type} [LinearOrderedField K]
    (fb : K → K → K) (res : AssocResource) (row : AssocRow K)
    (r : AssocRecord K) (h : parseAssocRowKept fb res row = some r) :
    r.variant = some (assocRowVariant row).render := by
  cases hb : row.beta with
  | none => simp [parseAssocRowKept, hb] at h
  | some b =>
    by_cases hig : assocIgnored res row.trait
    · simp [parseAssocRowKept, hb, hig] at h
    · simp only [parseAssocRowKept, hb, hig, Bool.false_eq_true, if_false,
        Option.some.injEq] at h
      subst h
      rfl

theorem parseAssocRow_variant {K : Type} [LinearOrderedField K]
    (fb : K → K → K) (res : AssocResource) (variants : Option (List Variant))
    (row : AssocRow K) (r : AssocRecord K)
    (h : parseAssocRow fb res variants row = some r) :
    r.variant = some (assocRowVariant row).render := by
  cases variants with
  | none => exact parseAssocRowKept_variant fb res row r h
  | some vs =>
    by_cases hv : assocRowVariant row ∈ vs
    · simp only [parseAssocRow, hv, if_true] at h
      exact parseAssocRowKept_variant fb res row r h
    · simp [parseAssocRow, hv] at h

theorem parseAssocRow_mem_requested {K : Type} [LinearOrderedField K]
    (fb : K → K → K) (res : AssocResource) (vs : List Variant)
    (row : AssocRow K) (r : AssocRecord K)
    (h : parseAssocRow fb res (some vs) row = some r) :
    assocRowVariant row ∈ vs := by
  by_cases hv : assocRowVariant row ∈ vs
  · exact hv
  · simp [parseAssocRow, hv] at h

theorem assocKept_variant_ne_none {K : Type} [LinearOrderedField K]
    (fb : K → K → K) (res : AssocResource) (rows : List (AssocRow K))
    (variants : Option (List Variant)) (r : AssocRecord K)
    (h : r ∈ assocKept fb res rows variants) : r.variant ≠ none := by
  obtain ⟨row, _, hp⟩ := List.mem_filterMap.mp h
  rw [parseAssocRow_variant fb res variants row r hp]
  simp

theorem mem_assocKeys_iff {K : Type} [LinearOrderedField K]
    (fb : K → K → K) (res : AssocResource) (rows : List (AssocRow K))
    (variants : Option (List Variant)) (v : String) :
    v ∈ assocKeys fb res rows variants ↔
      assocRealFor fb res rows variants v ≠ [] := by
  unfold assocKeys assocRealFor
  rw [List.mem_dedup, List.mem_filterMap]
  constructor
  · rintro ⟨r, hr, hv⟩ hnil
    rw [List.filter_eq_nil_iff] at hnil
    exact hnil r hr (by simp [hv])
  · intro hne
    obtain ⟨r, hr⟩ := List.exists_mem_of_ne_nil _ hne
    rw [List.mem_filter] at hr
    exact ⟨r, hr.1, by simpa using hr.2⟩

theorem dictGet_assocFetchDict {K : Type} [LinearOrderedField K]
    (fb : K → K → K) (res : AssocResource) (rows : List (AssocRow K))
    (variants : Option (List Variant)) (v : String) :
    dictGet v (assocFetchDict fb res rows variants) =
      assocEntriesFor fb res rows variants v := by
  unfold assocFetchDict
  rw [dictGet_map_keys]
  by_cases hv : v ∈ assocKeys fb res rows variants
  · rw [if_pos hv]
  · rw [if_neg hv]
    have hnil : assocRealFor fb res rows variants v = [] := by
      by_contra hne
      exact hv ((mem_assocKeys_iff fb res rows variants v).mpr hne)
    unfold assocEntriesFor
    rw [hnil]
    simp

theorem successResults_map_ok {α : Type} (l : List α) :
    successResults (l.map Except.ok) = l := by
  unfold successResults
  induction l with
  | nil => simp
  | cons h t ih => simpa using ih

theorem countP_assocEntriesFor_none {K : Type} [LinearOrderedField K]
    (fb : K → K → K) (res : AssocResource) (rows : List (AssocRow K))
    (variants : Option (List Variant)) (v : String) :
    (assocEntriesFor fb res rows variants v).countP
        (fun r => decide (r.variant = none)) =
      if assocRealFor fb res rows variants v = [] then 0 else 1 := by
  unfold assocEntriesFor
  by_cases hnil : assocRealFor fb res rows variants v = []
  · rw [if_pos hnil, if_pos hnil]
    simp
  · rw [if_neg hnil, if_neg hnil]
    rw [List.countP_append]
    have hreal : (assocRealFor fb res rows variants v).countP
        (fun r => decide (r.variant = none)) = 0 := by
      rw [List.countP_eq_zero]
      intro r hr
      have hk : r ∈ assocKept fb res rows variants :=
        (List.mem_filter.mp hr).1
      simpa using assocKept_variant_ne_none fb res rows variants r hk
    rw [hreal]
    simp [assocPlaceholder]

theorem mem_assocEntriesFor_none {K : Type} [LinearOrderedField K]
    (fb : K → K → K) (res : AssocResource) (rows : List (AssocRow K))
    (variants : Option (List Variant)) (v : String) (r : AssocRecord K)
    (hr : r ∈ assocEntriesFor fb res rows variants v)
    (hn : r.variant = none) : r = assocPlaceholder res.resource := by
  unfold assocEntriesFor at hr
  by_cases hnil : assocRealFor fb res rows variants v = []
  · rw [if_pos hnil] at hr; cases hr
  · rw [if_neg hnil] at hr
    rcases List.mem_append.mp hr with hreal | hph
    · have hk : r ∈ assocKept fb res rows variants :=
        (List.mem_filter.mp hreal).1
      exact absurd hn (assocKept_variant_ne_none fb res rows variants r hk)
    · simpa using hph

theorem mem_assocEntriesFor_some {K : Type} [LinearOrderedField K]
    (fb : K → K → K) (res : AssocResource) (rows : List (AssocRow K))
    (variants : Option (List Variant)) (v : String) (r : AssocRecord K)
    (hr : r ∈ assocEntriesFor fb res rows variants v)
    (hn : r.variant ≠ none) : r ∈ assocKept fb res rows variants := by
  unfold assocEntriesFor at hr
  by_cases hnil : assocRealFor fb res rows variants v = []
  · rw [if_pos hnil] at hr; cases hr
  · rw [if_neg hnil] at hr
    rcases List.mem_append.mp hr with hreal | hph
    · exact (List.mem_filter.mp hreal).1
    · have : r = assocPlaceholder res.resource := by simpa using hph
      rw [this] at hn
      simp [assocPlaceholder] at hn

theorem combinedAssoc_pipeline_eq {K : Type} [LinearOrderedField K]
    (fb : K → K → K)
    (resources : List (AssocResource × List (AssocRow K)))
    (variants : Option (List Variant)) (v : String) :
    combinedAssoc
        (resources.map (fun p => Except.ok (assocFetchDict fb p.1 p.2 variants)))
        v =
      (resources.map (fun p => assocEntriesFor fb p.1 p.2 variants v)).flatten := by
  unfold combinedAssoc
  have hcomp : (fun p : AssocResource × List (AssocRow K) =>
      Except.ok (ε := String) (assocFetchDict fb p.1 p.2 variants)) =
      Except.ok ∘ (fun p => assocFetchDict fb p.1 p.2 variants) := rfl
  rw [hcomp, ← List.map_map, successResults_map_ok]
  congr 1
  rw [List.map_map]
  apply List.map_congr_left
  intro p _
  exact dictGet_assocFetchDict fb p.1 p.2 variants v

theorem sorted_key_split {α : Type} {K : Type} [LinearOrderedField K]
    (key : α → K) (c : K) (P : α → Prop) :
    ∀ l : List α, l.Sorted (fun a b => key a ≤ key b) →
      (∀ x ∈ l, P x → key x < c) → (∀ x ∈ l, ¬ P x → key x = c) →
      ∃ l₁ l₂, l = l₁ ++ l₂ ∧ (∀ x ∈ l₁, P x) ∧ (∀ x ∈ l₂, ¬ P x)
  | [], _, _, _ => ⟨[], [], rfl, by simp, by simp⟩
  | a :: l, hs, h1, h2 => by
    rw [List.sorted_cons] at hs
    by_cases hP : P a
    · obtain ⟨l₁, l₂, heq, hl₁, hl₂⟩ :=
        sorted_key_split key c P l hs.2
          (fun x hx => h1 x (List.mem_cons_of_mem a hx))
          (fun x hx => h2 x (List.mem_cons_of_mem a hx))
      exact ⟨a :: l₁, l₂, by rw [heq]; rfl,
        fun x hx => by
          rcases List.mem_cons.mp hx with rfl | hx
          · exact hP
          · exact hl₁ x hx,
        hl₂⟩
    · refine ⟨[], a :: l, rfl, by simp, ?_⟩
      intro x hx hPx
      rcases List.mem_cons.mp hx with rfl | hx
      · exact hP hPx
      · have hax : key a ≤ key x := hs.1 x hx
        have hac : key a = c := h2 a (List.mem_cons_self a l) hP
        have hxc : key x < c := h1 x (List.mem_cons_of_mem a hx) hPx
        rw [hac] at hax
        exact absurd hax (not_le.mpr hxc)

/-- C1 (amended): for every variant present in the merged association result,
the merged entry list contains, for each configured resource that yielded at
least one kept row for that variant, that resource's real records plus
exactly one sentinel placeholder — so the number of placeholders equals the
number of resources that matched the variant, not the number that yielded
zero rows (zero-row resources contribute nothing); and whenever every real
record's significance exceeds the placeholder significance −1, every
placeholder is positioned after every real record. -/
theorem spec_c1_merged_entries {K : Type} [LinearOrderedField K]
    (fb : K → K → K)
    (resources : List (AssocResource × List (AssocRow K)))
    (variants : Option (List Variant)) (v : String) :
    ((assocPipeline fb resources variants v).countP
        (fun r => decide (r.variant = none)) =
      resources.countP
        (fun p => decide (assocRealFor fb p.1 p.2 variants v ≠ []))) ∧
    (assocPipeline fb resources variants v).Perm
      ((resources.map (fun p => assocEntriesFor fb p.1 p.2 variants v)).flatten) ∧
    ((∀ r ∈ assocPipeline fb resources variants v,
        r.variant ≠ none → (-1 : K) < r.mlog10p) →
      ∃ l₁ l₂, assocPipeline fb resources variants v = l₁ ++ l₂ ∧
        (∀ r ∈ l₁, r.variant ≠ none) ∧ (∀ r ∈ l₂, r.variant = none)) := by
  have hperm : (assocPipeline fb resources variants v).Perm
      ((resources.map (fun p => assocEntriesFor fb p.1 p.2 variants v)).flatten) := by
    unfold assocPipeline mergedAssoc sortAssoc
    exact (List.perm_insertionSort _ _).trans
      (by rw [combinedAssoc_pipeline_eq])
  have hmemflat : ∀ r ∈ assocPipeline fb resources variants v,
      ∃ p ∈ resources, r ∈ assocEntriesFor fb p.1 p.2 variants v := by
    intro r hr
    have := hperm.mem_iff.mp hr
    obtain ⟨l, hl, hrl⟩ := List.mem_flatten.mp this
    obtain ⟨p, hp, rfl⟩ := List.mem_map.mp hl
    exact ⟨p, hp, hrl⟩
  refine ⟨?_, hperm, ?_⟩
  · rw [hperm.countP_eq]
    clear hperm hmemflat
    induction resources with
    | nil => simp
    | cons p ps ih =>
      rw [List.map_cons, List.flatten_cons, List.countP_append, ih,
        List.countP_cons, countP_assocEntriesFor_none]
      by_cases hnil : assocRealFor fb p.1 p.2 variants v = []
      · simp [hnil]
      · simp only [hnil, if_false]
        simp [hnil]
        omega
  · intro hmono
    have hsorted : (assocPipeline fb resources variants v).Sorted
        (fun a b =>
          (fun r : AssocRecord K => -r.mlog10p) a ≤
            (fun r : AssocRecord K => -r.mlog10p) b) :=
      List.sorted_insertionSort (assocLe (K := K)) _
    obtain ⟨l₁, l₂, heq, h₁, h₂⟩ :=
      sorted_key_split (fun r : AssocRecord K => -r.mlog10p) 1
        (fun r => r.variant ≠ none) (assocPipeline fb resources variants v)
        hsorted
        (fun x hx hP => by
          have := hmono x hx hP
          show -x.mlog10p < 1
          linarith)
        (fun x hx hP => by
          have hxn : x.variant = none := not_not.mp hP
          obtain ⟨p, _, hxe⟩ := hmemflat x hx
          have hxp := mem_assocEntriesFor_none fb p.1 p.2 variants v x hxe hxn
          show -x.mlog10p = 1
          rw [hxp]
          simp [assocPlaceholder])
    exact ⟨l₁, l₂, heq, h₁, fun r hr => not_not.mp (h₂ r hr)⟩

/-- C1 counterexample: with two configured resources `A` (one matching row
for the variant) and `B` (zero rows), the merged list for the variant has two
entries — `A`'s real record and `A`'s placeholder — and no entry at all for
the zero-row resource `B`, contradicting the claimed one-entry-per-configured-
resource shape (which would demand a `B` placeholder and three entries). -/
theorem spec_c1_cex :
    ((assocPipeline (fun _ _ => (0:ℚ))
        [(⟨"A", none⟩, [⟨"1", 100, "A", "T", "DS", "GWAS", "T1",
            some 1, 1, FNum.num 5⟩]),
          (⟨"B", none⟩, [])]
        none "1:100:A:T").length = 2) ∧
    ((assocPipeline (fun _ _ => (0:ℚ))
        [(⟨"A", none⟩, [⟨"1", 100, "A", "T", "DS", "GWAS", "T1",
            some 1, 1, FNum.num 5⟩]),
          (⟨"B", none⟩, [])]
        none "1:100:A:T").countP (fun r => decide (r.resource = "B")) = 0) := by
  constructor
  · rfl
  · rfl

/-- C1 witness: the ordering part of `spec_c1_merged_entries` applied at the
two-resource configuration, its significance hypothesis discharged by
evaluation. -/
theorem spec_c1_witness :
    ∃ l₁ l₂,
      assocPipeline (fun _ _ => (0:ℚ))
          [(⟨"A", none⟩, [⟨"1", 100, "A", "T", "DS", "GWAS", "T1",
              some 1, 1, FNum.num 5⟩]),
            (⟨"B", none⟩, [])]
          none "1:100:A:T" = l₁ ++ l₂ ∧
        (∀ r ∈ l₁, r.variant ≠ none) ∧ (∀ r ∈ l₂, r.variant = none) :=
  (spec_c1_merged_entries (fun _ _ => (0:ℚ))
      [(⟨"A", none⟩, [⟨"1", 100, "A", "T", "DS", "GWAS", "T1",
          some 1, 1, FNum.num 5⟩]),
        (⟨"B", none⟩, [])]
      none "1:100:A:T").2.2 (by decide)

/-- C3 (amended): in variant-list mode the association adapter keeps only
rows whose variant is among the requested variants, so the association
per-variant map contains only requested variants; the fine-mapping parser,
however, receives no requested-variant list and filters nothing by variant —
the requested list does not influence its result at all, and its map is
keyed by each kept row's own variant (e.g. a multiallelic sibling at a
requested position). -/
theorem spec_c3_variant_filter {K : Type} [LinearOrderedField K]
    (fb : K → K → K) (res : AssocResource) (rows : List (AssocRow K))
    (vs : List Variant) (fres : FineResource) (frows : List (FineRow K)) :
    (∀ v ∈ (assocFetchDict fb res rows (some vs)).map Prod.fst,
      v ∈ vs.map Variant.render) ∧
    (fineFetchVariants fres frows vs = fineFetchDict fres frows) ∧
    (∀ v, v ∈ (fineFetchDict fres frows).map Prod.fst ↔
      v ∈ (fineKept fres frows).map FineRecord.variant) := by
  refine ⟨?_, rfl, ?_⟩
  · intro v hv
    unfold assocFetchDict at hv
    rw [List.map_map] at hv
    have hkeys : v ∈ assocKeys fb res rows (some vs) := by
      obtain ⟨k, hk, rfl⟩ := List.mem_map.mp hv
      exact hk
    unfold assocKeys at hkeys
    rw [List.mem_dedup, List.mem_filterMap] at hkeys
    obtain ⟨r, hr, hrv⟩ := hkeys
    obtain ⟨row, hrow, hp⟩ := List.mem_filterMap.mp hr
    have h1 := parseAssocRow_variant fb res (some vs) row r hp
    have h2 := parseAssocRow_mem_requested fb res vs row r hp
    rw [h1] at hrv
    injection hrv with hrv
    rw [← hrv]
    exact List.mem_map.mpr ⟨assocRowVariant row, h2, rfl⟩
  · intro v
    unfold fineFetchDict
    rw [List.map_map]
    have : (Prod.fst ∘ fun v =>
        (v, fineRealFor fres frows v)) = id := rfl
    rw [this, List.map_id, List.mem_dedup]

/-- C3 counterexample: in variant-list mode with the single requested variant
`1:1000:A:T`, a fine-mapping row for the multiallelic sibling `1:1000:A:C`
(which tabix returns for the requested position range) is kept and keyed
under its own variant, so the returned per-variant map contains a
non-requested variant. -/
theorem spec_c3_cex :
    ((fineFetchVariants (⟨"OT", none⟩ : FineResource)
        [⟨"1", 1000, "A", "C", "OT", none, "DS", "GWAS", "T1",
          some (5:ℚ), some 1, some 1, 1/2, some 3, some (9/10)⟩]
        [⟨"1", 1000, "A", "T"⟩]).map Prod.fst = ["1:1000:A:C"]) ∧
    ¬ "1:1000:A:C" ∈ ([⟨"1", 1000, "A", "T"⟩] : List Variant).map Variant.render := by
  constructor
  · rfl
  · decide

/-- C3 witness: the association half of `spec_c3_variant_filter` applied at a
one-row, one-variant configuration, its key-membership hypothesis discharged
by evaluation. -/
theorem spec_c3_witness :
    "1:100:A:T" ∈ ([⟨"1", 100, "A", "T"⟩] : List Variant).map Variant.render :=
  (spec_c3_variant_filter (fun _ _ => (0:ℚ)) ⟨"A", none⟩
      [⟨"1", 100, "A", "T", "DS", "GWAS", "T1", some 1, 1, FNum.num 5⟩]
      [⟨"1", 100, "A", "T"⟩] ⟨"OT", none⟩ []).1
    "1:100:A:T" (by decide)

/-- C4: the fan-out merge is a total function of the per-adapter outcomes —
no adapter exception propagates — every failed adapter is simply excluded,
and the merged bucket for every variant contains every record of every
non-failing adapter's per-variant result. -/
theorem spec_c4_partial_failure {K : Type} [LinearOrderedField K]
    (outcomes : List (Except String (List (String × List (AssocRecord K)))))
    (m : List (String × List (AssocRecord K)))
    (h : Except.ok m ∈ outcomes) :
    (∀ v r, r ∈ dictGet v m → r ∈ mergedAssoc outcomes v) ∧
    (∀ v, mergedAssoc outcomes v =
      mergedAssoc ((successResults outcomes).map Except.ok) v) := by
  constructor
  · intro v r hr
    have hm : m ∈ successResults outcomes :=
      List.mem_filterMap.mpr ⟨Except.ok m, h, rfl⟩
    have hflat : r ∈ combinedAssoc outcomes v := by
      unfold combinedAssoc
      exact List.mem_flatten.mpr
        ⟨dictGet v m, List.mem_map.mpr ⟨m, hm, rfl⟩, hr⟩
    unfold mergedAssoc sortAssoc
    exact (List.perm_insertionSort _ _).mem_iff.mpr hflat
  · intro v
    unfold mergedAssoc combinedAssoc
    rw [successResults_map_ok]

/-- C4 witness: `spec_c4_partial_failure` applied to a fan-out where the
middle adapter fails; the surviving first adapter's record is in the merged
bucket. -/
theorem spec_c4_witness :
    (⟨some "1:100:A:T", some false, "A", "DS", "GWAS", "T1", 5, 1, 1⟩ :
        AssocRecord ℚ) ∈
      mergedAssoc
        [Except.ok [("1:100:A:T",
            [⟨some "1:100:A:T", some false, "A", "DS", "GWAS", "T1", 5, 1, 1⟩])],
          Except.error "tabix stderr text",
          Except.ok []]
        "1:100:A:T" :=
  (spec_c4_partial_failure
      [Except.ok [("1:100:A:T",
          [⟨some "1:100:A:T", some false, "A", "DS", "GWAS", "T1", 5, 1, 1⟩])],
        Except.error "tabix stderr text",
        Except.ok []]
      [("1:100:A:T",
        [⟨some "1:100:A:T", some false, "A", "DS", "GWAS", "T1", 5, 1, 1⟩])]
      (List.mem_cons_self _ _)).1
    "1:100:A:T" _ (by decide)

/-- C5: `DiskCache._get_cache_key` builds the key from the operation name,
the gnomAD file, the association files, the fine-mapping files and the
arguments — but not from the LD-association file `LDDatafetch` consumes.
Changing only the LD file's identity therefore leaves the `fetch_ld_assoc`
key unchanged, and a `get()` with identical arguments after a `set()` returns
the stale payload instead of not-found. -/
theorem spec_c5_ld_key_stale {π : Type} (σ : List (String × π))
    (cfg : CacheConfig) (args : List String) (v : π) (ld2 : String) :
    cacheKey { cfg with ldAssocFile := ld2 } "fetch_ld_assoc" args =
      cacheKey cfg "fetch_ld_assoc" args ∧
    diskCacheGetRaw (diskCacheSetRaw σ cfg "fetch_ld_assoc" args v)
        { cfg with ldAssocFile := ld2 } "fetch_ld_assoc" args = some v := by
  have hkey : cacheKey { cfg with ldAssocFile := ld2 } "fetch_ld_assoc" args =
      cacheKey cfg "fetch_ld_assoc" args := rfl
  refine ⟨hkey, ?_⟩
  unfold diskCacheGetRaw diskCacheSetRaw storeInsert
  rw [hkey]
  simp [alookup]

/-- Permutations preserve the total byte size of a file list. -/
theorem totalSize_perm {l m : List CacheFile} (h : l.Perm m) :
    totalSize l = totalSize m := by
  unfold totalSize
  exact (h.map (fun f => f.size)).sum_eq

/-- The eviction loop, entered with the running size equal to the total size
of the remaining files, terminates within budget: in the worst case it
deletes everything. -/
theorem evictLoop_size_le (budget : Nat) :
    ∀ l : List CacheFile, totalSize (evictLoop budget (totalSize l) l) ≤ budget
  | [] => by simp [evictLoop, totalSize]
  | f :: rest => by
    unfold evictLoop
    by_cases h : totalSize (f :: rest) ≤ budget
    · rw [if_pos h]
      exact h
    · rw [if_neg h]
      have hsub : totalSize (f :: rest) - f.size = totalSize rest := by
        simp [totalSize]
      rw [hsub]
      exact evictLoop_size_le budget rest

/-- The eviction loop deletes a prefix of the list it walks: the survivors
are a suffix. -/
theorem evictLoop_drop (budget : Nat) :
    ∀ (cur : Nat) (l : List CacheFile), ∃ k, evictLoop budget cur l = l.drop k
  | _, [] => ⟨0, rfl⟩
  | cur, f :: rest => by
    by_cases h : cur ≤ budget
    · refine ⟨0, ?_⟩
      unfold evictLoop
      rw [if_pos h]
      rfl
    · obtain ⟨k, hk⟩ := evictLoop_drop budget (cur - f.size) rest
      refine ⟨k + 1, ?_⟩
      unfold evictLoop
      rw [if_neg h, hk]
      rfl

/-- C6: after every cache write, the total size of the cache directory is at
most the configured byte budget, and the surviving files are, up to
permutation, a suffix of the oldest-first (by last-access time, which both
reads and writes refresh) ordering — that is, the deleted entries are
exactly the `k` oldest. -/
theorem spec_c6_eviction (budget : Nat) (files : List CacheFile)
    (new : CacheFile) :
    totalSize (diskCacheSetFile budget files new) ≤ budget ∧
    ∃ k, (diskCacheSetFile budget files new).Perm
      ((sortByMtime (cacheWrite files new)).drop k) := by
  unfold diskCacheSetFile ensureCacheSize
  by_cases h : totalSize (cacheWrite files new) ≤ budget
  · rw [if_pos h]
    refine ⟨h, 0, ?_⟩
    simpa using (List.perm_insertionSort mtimeLe (cacheWrite files new)).symm
  · rw [if_neg h]
    constructor
    · have heq : totalSize (cacheWrite files new) =
          totalSize (sortByMtime (cacheWrite files new)) :=
        totalSize_perm (List.perm_insertionSort mtimeLe _).symm
      rw [heq]
      exact evictLoop_size_le budget _
    · obtain ⟨k, hk⟩ :=
        evictLoop_drop budget (totalSize (cacheWrite files new))
          (sortByMtime (cacheWrite files new))
      exact ⟨k, by rw [hk]⟩

/-- C10: the disk-cache wrapper treats a stored `None` as a miss: `get`
returns `None` (it is a total function, never an exception) for a missing,
unreadable/undecodable, or JSON-`null` entry, and whenever `get` yields
`None` the decorator re-executes the underlying operation and re-stores its
result — in particular a stored JSON `null` is never served from the
cache. -/
theorem spec_c10_cache_none_miss {V : Type} (σ : List (String × StoredEntry V))
    (k : String) (f : Unit → JsonVal V) :
    (alookup k σ = none → diskCacheGetJson σ k = none) ∧
    (alookup k σ = some StoredEntry.undecodable →
      diskCacheGetJson σ k = none) ∧
    (alookup k σ = some (StoredEntry.content JsonVal.null) →
      diskCacheGetJson σ k = none) ∧
    (diskCacheGetJson σ k = none →
      cachedCall σ k f = (f (), diskCacheSetJson σ k (f ()))) ∧
    (cachedCall (diskCacheSetJson σ k JsonVal.null) k f =
      (f (), diskCacheSetJson (diskCacheSetJson σ k JsonVal.null) k (f ()))) := by
  refine ⟨?_, ?_, ?_, ?_, ?_⟩
  · intro h
    unfold diskCacheGetJson
    rw [h]
  · intro h
    unfold diskCacheGetJson
    rw [h]
  · intro h
    unfold diskCacheGetJson
    rw [h]
  · intro h
    unfold cachedCall
    rw [h]
  · have hget : diskCacheGetJson (diskCacheSetJson σ k JsonVal.null) k = none := by
      unfold diskCacheGetJson diskCacheSetJson storeInsert
      simp [alookup]
    unfold cachedCall
    rw [hget]

/-- C10 witness: `spec_c10_cache_none_miss` applied to the empty store, the
miss hypothesis discharged by evaluation. -/
theorem spec_c10_witness :
    cachedCall ([] : List (String × StoredEntry Nat)) "k"
        (fun _ => JsonVal.val 7) =
      ((fun _ : Unit => JsonVal.val 7) (),
        diskCacheSetJson ([] : List (String × StoredEntry Nat)) "k"
          ((fun _ : Unit => JsonVal.val 7) ())) :=
  (spec_c10_cache_none_miss ([] : List (String × StoredEntry Nat)) "k"
      (fun _ => JsonVal.val 7)).2.2.2.1 rfl

/-- C8 (amended): on the `gene_model_by_gene` endpoint a negative padding is
rejected with a 400 before the gene is resolved or any range query is issued;
for a known gene (matched case-insensitively through the uppercase table) the
queried interval is `(chr, start − p, end + p)` relative to the resolver's
stored interval, and an unknown gene yields the typed not-found error on
both endpoints.  The `gene_cs` endpoint applies the same interval arithmetic
but never validates the padding: a negative padding there still issues the
(narrowed) range query instead of being rejected. -/
theorem spec_c8_gene_padding (table : List (String × (String × Int × Int)))
    (modelFile csFile gene : String) (padding : Int) :
    (padding < 0 →
      geneModelByGene table modelFile gene padding =
        GeneEndpointResult.badRequest "padding must be non-negative") ∧
    (0 ≤ padding → ∀ chr s e,
      getGeneRange table (pyUpper gene) = Except.ok (chr, s, e) →
      geneModelByGene table modelFile gene padding =
        GeneEndpointResult.tabixStream modelFile chr (s - padding) (e + padding)) ∧
    (0 ≤ padding → ∀ msg,
      getGeneRange table (pyUpper gene) = Except.error msg →
      geneModelByGene table modelFile gene padding =
        GeneEndpointResult.notFound msg) ∧
    (∀ chr s e,
      getGeneRange table (pyUpper gene) = Except.ok (chr, s, e) →
      geneCs table csFile gene padding =
        GeneEndpointResult.tabixStream csFile chr (s - padding) (e + padding)) ∧
    (∀ msg,
      getGeneRange table (pyUpper gene) = Except.error msg →
      geneCs table csFile gene padding =
        GeneEndpointResult.notFound msg) := by
  refine ⟨?_, ?_, ?_, ?_, ?_⟩
  · intro hneg
    unfold geneModelByGene
    rw [if_pos hneg]
  · intro hpos chr s e hga
    unfold geneModelByGene
    rw [if_neg (not_lt.mpr hpos), hga]
  · intro hpos msg hga
    unfold geneModelByGene
    rw [if_neg (not_lt.mpr hpos), hga]
  · intro chr s e hga
    unfold geneCs
    rw [hga]
  · intro msg hga
    unfold geneCs
    rw [hga]

/-- C8 counterexample: on the `gene_cs` endpoint, the negative padding −5 for
the known gene `brca2` is not rejected — the endpoint issues a range query
for the narrowed interval (105, 195) — refuting that every negative padding
is rejected before any range query on the gene-range endpoints. -/
theorem spec_c8_cex :
    geneCs (mkGeneTable [("BRCA2", ("13", 100, 200))]) "cs.tsv.gz" "brca2"
        (-5) =
      GeneEndpointResult.tabixStream "cs.tsv.gz" "13" 105 195 ∧
    ((-5 : Int) < 0) := by
  exact ⟨rfl, by decide⟩

/-- C8 witness: `spec_c8_gene_padding` applied at a concrete table — the
rejection branch at padding −1, the padded-interval branch at padding 10
(case-insensitive lookup of `brca2`), and the `gene_cs` unknown-gene
not-found branch — hypotheses discharged by evaluation. -/
theorem spec_c8_witness :
    geneModelByGene (mkGeneTable [("BRCA2", ("13", 100, 200))]) "model.tsv.gz"
        "BRCA2" (-1) =
      GeneEndpointResult.badRequest "padding must be non-negative" ∧
    geneModelByGene (mkGeneTable [("BRCA2", ("13", 100, 200))]) "model.tsv.gz"
        "brca2" 10 =
      GeneEndpointResult.tabixStream "model.tsv.gz" "13" 90 210 ∧
    geneCs (mkGeneTable [("BRCA2", ("13", 100, 200))]) "cs.tsv.gz"
        "nosuch" 0 =
      GeneEndpointResult.notFound "Gene NOSUCH not found" :=
  ⟨(spec_c8_gene_padding (mkGeneTable [("BRCA2", ("13", 100, 200))])
      "model.tsv.gz" "cs.tsv.gz" "BRCA2" (-1)).1 (by decide),
    (spec_c8_gene_padding (mkGeneTable [("BRCA2", ("13", 100, 200))])
        "model.tsv.gz" "cs.tsv.gz" "brca2" 10).2.1 (by decide)
      "13" 100 200 rfl,
    (spec_c8_gene_padding (mkGeneTable [("BRCA2", ("13", 100, 200))])
        "model.tsv.gz" "cs.tsv.gz" "nosuch" 0).2.2.2.2
      "Gene NOSUCH not found" rfl⟩

theorem mem_map_fst_gnomadInsertRow (k : String) (r : GnomadRow)
    (x : String) :
    ∀ rows : List (String × GnomadEntry),
      (x ∈ (gnomadInsertRow rows k r).map Prod.fst ↔
        x = k ∨ x ∈ rows.map Prod.fst)
  | [] => by simp [gnomadInsertRow]
  | p :: rest => by
    by_cases h : p.1 = k
    · have heq : gnomadInsertRow (p :: rest) k r =
          (k, updGnomadEntry p.2 r) :: rest := by
        simp only [gnomadInsertRow]
        rw [if_pos h]
      rw [heq]
      simp [h]
    · have heq : gnomadInsertRow (p :: rest) k r =
          p :: gnomadInsertRow rest k r := by
        simp only [gnomadInsertRow]
        rw [if_neg h]
      rw [heq]
      have ih := mem_map_fst_gnomadInsertRow k r x rest
      simp only [List.map_cons, List.mem_cons, ih]
      tauto

theorem mem_map_fst_gnomadData_fold (x : String) :
    ∀ (kept : List GnomadRow) (acc : List (String × GnomadEntry)),
      (x ∈ (kept.foldl
            (fun a r => gnomadInsertRow a (gnomadRowVariant r).render r)
            acc).map Prod.fst ↔
        x ∈ acc.map Prod.fst ∨
          x ∈ kept.map (fun r => (gnomadRowVariant r).render))
  | [], acc => by simp
  | r :: rest, acc => by
    rw [List.foldl_cons]
    have ih := mem_map_fst_gnomadData_fold x rest
      (gnomadInsertRow acc (gnomadRowVariant r).render r)
    rw [ih]
    have hins := mem_map_fst_gnomadInsertRow (gnomadRowVariant r).render r x acc
    simp only [List.map_cons, List.mem_cons, hins]
    tauto

theorem mem_map_fst_gnomadData (kept : List GnomadRow) (x : String) :
    x ∈ (gnomadData kept).map Prod.fst ↔
      x ∈ kept.map (fun r => (gnomadRowVariant r).render) := by
  unfold gnomadData
  rw [mem_map_fst_gnomadData_fold]
  simp

theorem mem_sortStrings (l : List String) (x : String) :
    x ∈ sortStrings l ↔ x ∈ l :=
  (List.perm_insertionSort _ l).mem_iff

/-- C9: in the variant-list results operation, the data array contains
exactly the queried variants that have a gnomAD row — every data-array
variant is a found variant and vice versa, every found variant is a
requested one, a requested variant without a gnomAD row appears in the
not-found list and not in the data array — and if no fetched row survives
the requested-variant filter the whole operation fails with the
variant-not-found error instead of returning an empty result. -/
theorem spec_c9_results_gnomad_gate {K : Type} [LinearOrderedField K]
    (rows : List GnomadRow) (requested : List Variant)
    (assocData ldData : List (String × List (AssocRecord K)))
    (fineData : List (String × List (FineRecord K))) :
    (∀ g, gnomadFetchRows rows (some requested) none = Except.ok g →
      (∀ v, v ∈ (resultsDataArray g assocData ldData fineData).map
          VariantBlock.variant ↔ v ∈ g.found_variants) ∧
      (∀ v ∈ g.found_variants, v ∈ requested.map Variant.render) ∧
      (∀ v ∈ requested.map Variant.render, ¬ v ∈ g.found_variants →
        ¬ v ∈ (resultsDataArray g assocData ldData fineData).map
            VariantBlock.variant ∧
        v ∈ notFoundList g (requested.map Variant.render))) ∧
    (rows.filter (gnomadRowKeep (some requested) none) = [] →
      resultsVariantMode rows requested assocData ldData fineData =
        Except.error GnomadErr.variantNotFound) := by
  constructor
  · intro g hg
    unfold gnomadFetchRows at hg
    by_cases hrows : rows = []
    · rw [if_pos hrows] at hg
      cases hg
    · rw [if_neg hrows] at hg
      by_cases hfound :
          ((rows.filter (gnomadRowKeep (some requested) none)).map
            (fun r => (gnomadRowVariant r).render)).dedup = []
      · rw [if_pos hfound] at hg
        cases hg
      · rw [if_neg hfound] at hg
        injection hg with hg
        subst hg
        have hdata : ∀ v,
            v ∈ (resultsDataArray
                (⟨((rows.filter (gnomadRowKeep (some requested) none)).map
                    (fun r => (gnomadRowVariant r).render)).dedup,
                  gnomadData (rows.filter (gnomadRowKeep (some requested) none))⟩ :
                  GnomadOut)
                assocData ldData fineData).map VariantBlock.variant ↔
              v ∈ ((rows.filter (gnomadRowKeep (some requested) none)).map
                (fun r => (gnomadRowVariant r).render)).dedup := by
          intro v
          unfold resultsDataArray
          rw [List.map_map]
          have hproj : (VariantBlock.variant (K := K) ∘ fun v =>
              { variant := v
                gnomad := gnomadGet v (gnomadData
                  (rows.filter (gnomadRowKeep (some requested) none)))
                assoc := sortAssoc (dictGet v assocData ++ dictGet v ldData)
                finemapped := dictGet v fineData }) = id := rfl
          rw [hproj, List.map_id, mem_sortStrings, mem_map_fst_gnomadData,
            List.mem_dedup]
        refine ⟨hdata, ?_, ?_⟩
        · intro v hv
          rw [List.mem_dedup, List.mem_map] at hv
          obtain ⟨r, hr, rfl⟩ := hv
          have hkeep := (List.mem_filter.mp hr).2
          unfold gnomadRowKeep at hkeep
          rw [Bool.and_eq_true] at hkeep
          have hreq : gnomadRowVariant r ∈ requested := by
            simpa using hkeep.1
          exact List.mem_map.mpr ⟨gnomadRowVariant r, hreq, rfl⟩
        · intro v hvin hvnot
          refine ⟨fun hc => hvnot ((hdata v).mp hc), ?_⟩
          unfold notFoundList
          rw [List.mem_filter]
          exact ⟨hvin, by simpa using hvnot⟩
  · intro hkept
    unfold resultsVariantMode gnomadFetchRows
    by_cases hrows : rows = []
    · rw [if_pos hrows]
    · rw [if_neg hrows, hkept]
      simp

/-- C9 witness: `spec_c9_results_gnomad_gate` applied to one gnomAD row and
two requested variants: the second requested variant has no gnomAD row, so
it is absent from the data array and present in the not-found list.  The
fetch hypothesis and the membership hypotheses are discharged by
evaluation. -/
theorem spec_c9_witness :
    ¬ "2:200:G:C" ∈ (resultsDataArray (K := ℚ)
        (⟨["1:100:A:T"],
          [("1:100:A:T",
            ⟨none, some ⟨"1", 100, "A", "T", "g", "GENE1"⟩⟩)]⟩ : GnomadOut)
        [] [] []).map VariantBlock.variant ∧
    "2:200:G:C" ∈ notFoundList
      (⟨["1:100:A:T"],
        [("1:100:A:T",
          ⟨none, some ⟨"1", 100, "A", "T", "g", "GENE1"⟩⟩)]⟩ : GnomadOut)
      (([⟨"1", 100, "A", "T"⟩, ⟨"2", 200, "G", "C"⟩] :
          List Variant).map Variant.render) :=
  ((spec_c9_results_gnomad_gate (K := ℚ)
        [⟨"1", 100, "A", "T", "g", "GENE1"⟩]
        [⟨"1", 100, "A", "T"⟩, ⟨"2", 200, "G", "C"⟩] [] [] []).1
      (⟨["1:100:A:T"],
        [("1:100:A:T",
          ⟨none, some ⟨"1", 100, "A", "T", "g", "GENE1"⟩⟩)]⟩ : GnomadOut)
      rfl).2.2 "2:200:G:C" (by decide) (by decide)

theorem successResults_congr {α : Type}
    {o₁ o₂ : List (Except String α)} (h : List.Forall₂ sameSuccess o₁ o₂) :
    successResults o₁ = successResults o₂ := by
  induction h with
  | nil => rfl
  | @cons a b l₁ l₂ hab htail ih =>
    cases a with
    | ok x =>
      cases b with
      | ok y =>
        have hxy : x = y := hab
        unfold successResults at ih ⊢
        simp [hxy, ih]
      | error e => exact absurd hab (by simp [sameSuccess])
    | error e =>
      cases b with
      | ok y => exact absurd hab (by simp [sameSuccess])
      | error e₂ =>
        unfold successResults at ih ⊢
        simpa using ih

/-- C7: a tool failure is reported to the caller only as a generic marker,
never with the tool's internal output: the fan-out merge is unchanged under
arbitrary replacement of failure texts (failures are dropped wholesale); the
streaming endpoints append the fixed `!error: failed to read` marker on
nonzero exit, independent of the stderr text; the `gene_results` reply to an
uncaught fetch `DataException` is the boundary's generic server error for
every stderr text; and the raw stderr text lives only inside the
`DataException` that the fan-out then swallows. -/
theorem spec_c7_generic_errors {K : Type} [LinearOrderedField K] :
    (∀ (o₁ o₂ : List (Except String (List (String × List (AssocRecord K))))),
      List.Forall₂ sameSuccess o₁ o₂ →
      ∀ v, mergedAssoc o₁ v = mergedAssoc o₂ v) ∧
    (∀ (chunks : List String) (rc : Int) (s₁ s₂ : String),
      streamTabixOutput chunks rc s₁ = streamTabixOutput chunks rc s₂) ∧
    (∀ (chunks : List String) (rc : Int) (stderrText : String), rc ≠ 0 →
      streamTabixOutput chunks rc stderrText =
        chunks ++ ["!error: failed to read"]) ∧
    (∀ (gene msg : String),
      geneResultsReply gene (Except.error (GnomadErr.dataError msg)) =
        GeneReplyModel.genericServerError) ∧
    (∀ (fb : K → K → K) (res : AssocResource)
        (variants : Option (List Variant)) (t : TabixRun (AssocRow K)),
      tabixFailed t = true →
      singleResourceFetchAssoc fb res variants t =
        Except.error (tabixErrMsg t)) := by
  refine ⟨?_, ?_, ?_, ?_, ?_⟩
  · intro o₁ o₂ h v
    unfold mergedAssoc combinedAssoc
    rw [successResults_congr h]
  · intro chunks rc s₁ s₂
    rfl
  · intro chunks rc stderrText hrc
    unfold streamTabixOutput
    rw [if_pos hrc]
  · intro gene msg
    rfl
  · intro fb res variants t ht
    unfold singleResourceFetchAssoc
    rw [if_pos ht]

/-- C7 witness: `spec_c7_generic_errors` applied at concrete inputs — the
streaming marker for a failed run with nonempty stderr, and the fan-out
equality for two runs whose only difference is the failure text. -/
theorem spec_c7_witness :
    streamTabixOutput ["header-line"] 1 "tabix internal stderr" =
      ["header-line"] ++ ["!error: failed to read"] ∧
    mergedAssoc
        ([Except.error "stderr text one"] :
          List (Except String (List (String × List (AssocRecord ℚ)))))
        "1:100:A:T" =
      mergedAssoc
        ([Except.error "different stderr text"] :
          List (Except String (List (String × List (AssocRecord ℚ)))))
        "1:100:A:T" :=
  ⟨(spec_c7_generic_errors (K := ℚ)).2.2.1 ["header-line"] 1
      "tabix internal stderr" (by decide),
    (spec_c7_generic_errors (K := ℚ)).1
      [Except.error "stderr text one"] [Except.error "different stderr text"]
      (List.forall₂_cons.mpr ⟨trivial, List.Forall₂.nil⟩) "1:100:A:T"⟩

theorem hasDeriv_negexp (x : ℝ) :
    HasDerivAt (fun t : ℝ => -Real.exp (-(t^2)/2)) (x * Real.exp (-(x^2)/2)) x := by
  have h1 : HasDerivAt (fun t : ℝ => -(t^2)/2) (-x) x := by
    have h2 := ((hasDerivAt_pow 2 x).div_const 2).neg
    convert h2 using 1
    · funext t; ring
    · push_cast; ring
  have h3 := h1.exp.neg
  convert h3 using 1
  ring

theorem tendsto_negexp : Tendsto (fun t : ℝ => -Real.exp (-(t^2)/2)) atTop (nhds 0) := by
  have h1 : Tendsto (fun t : ℝ => t^2/2) atTop atTop :=
    (tendsto_pow_atTop (by norm_num : 2 ≠ 0)).atTop_div_const (by norm_num)
  have h2 : Tendsto (fun t : ℝ => -(t^2)/2) atTop atBot := by
    simpa [neg_div] using tendsto_neg_atBot_iff.mpr h1
  have h3 : Tendsto (fun t : ℝ => Real.exp (-(t^2)/2)) atTop (nhds 0) :=
    Real.tendsto_exp_atBot.comp h2
  simpa using h3.neg

theorem integrableOn_texp : IntegrableOn (fun t : ℝ => t * Real.exp (-(t^2)/2)) (Ioi 2) := by
  have h : (fun t : ℝ => t * Real.exp (-(t^2)/2)) = fun t : ℝ => t * Real.exp (-(1/2 : ℝ) * t^2) := by
    funext t; ring_nf
  rw [h]
  exact (integrable_mul_exp_neg_mul_sq (by norm_num : (0:ℝ) < 1/2)).integrableOn

theorem integrableOn_exp2 : IntegrableOn (fun t : ℝ => Real.exp (-(t^2)/2)) (Ioi 2) := by
  have h : (fun t : ℝ => Real.exp (-(t^2)/2)) = fun t : ℝ => Real.exp (-(1/2 : ℝ) * t^2) := by
    funext t; ring_nf
  rw [h]
  exact (integrable_exp_neg_mul_sq (by norm_num : (0:ℝ) < 1/2)).integrableOn

theorem integral_texp : ∫ t in Ioi (2:ℝ), t * Real.exp (-(t^2)/2) = Real.exp (-2) := by
  have h := integral_Ioi_of_hasDerivAt_of_tendsto
    ((hasDeriv_negexp 2).continuousAt.continuousWithinAt)
    (fun x _ => hasDeriv_negexp x) integrableOn_texp tendsto_negexp
  rw [h]
  norm_num

-- upper bound
theorem gaussTail_ub : gaussTail 2 ≤ Real.exp (-2) / 2 := by
  have hmono : ∫ t in Ioi (2:ℝ), Real.exp (-(t^2)/2) ≤ ∫ t in Ioi (2:ℝ), t/2 * Real.exp (-(t^2)/2) := by
    apply setIntegral_mono_on integrableOn_exp2 ?_ measurableSet_Ioi ?_
    · have h : (fun t : ℝ => t/2 * Real.exp (-(t^2)/2)) = fun t : ℝ => (1/2) * (t * Real.exp (-(t^2)/2)) := by
        funext t; ring
      rw [h]
      exact integrableOn_texp.const_mul _
    · intro x hx
      have hx2 : (2:ℝ) ≤ x := le_of_lt hx
      nlinarith [Real.exp_pos (-(x^2)/2)]
  have heq : ∫ t in Ioi (2:ℝ), t/2 * Real.exp (-(t^2)/2) = Real.exp (-2) / 2 := by
    have h : (fun t : ℝ => t/2 * Real.exp (-(t^2)/2)) = fun t : ℝ => (1/2) * (t * Real.exp (-(t^2)/2)) := by
      funext t; ring
    rw [h, integral_mul_left, integral_texp]
    ring
  calc gaussTail 2 ≤ ∫ t in Ioi (2:ℝ), t/2 * Real.exp (-(t^2)/2) := hmono
    _ = Real.exp (-2) / 2 := heq

-- lower bound: antiderivative F t = (t⁻³ - t⁻¹) * exp(-(t^2)/2)
theorem hasDeriv_lowF {x : ℝ} (hx : x ≠ 0) :
    HasDerivAt (fun t : ℝ => ((t^3)⁻¹ - t⁻¹) * Real.exp (-(t^2)/2))
      ((1 - 3*(x^4)⁻¹) * Real.exp (-(x^2)/2)) x := by
  have hx3 : x^3 ≠ 0 := pow_ne_zero _ hx
  have hinv3 : HasDerivAt (fun t : ℝ => (t^3)⁻¹) (-(3*x^2) / (x^3)^2) x := by
    have := (hasDerivAt_pow 3 x).inv hx3
    convert this using 1
  have hinv : HasDerivAt (fun t : ℝ => t⁻¹) (-(x^2)⁻¹) x := hasDerivAt_inv hx
  have hexp : HasDerivAt (fun t : ℝ => Real.exp (-(t^2)/2)) (Real.exp (-(x^2)/2) * -x) x := by
    have h1 : HasDerivAt (fun t : ℝ => -(t^2)/2) (-x) x := by
      have h2 := ((hasDerivAt_pow 2 x).div_const 2).neg
      convert h2 using 1
      · funext t; ring
      · push_cast; ring
    exact h1.exp
  have hmul := (hinv3.sub hinv).mul hexp
  convert hmul using 1
  have h4 : x^4 ≠ 0 := pow_ne_zero _ hx
  field_simp
  ring

theorem tendsto_lowF :
    Tendsto (fun t : ℝ => ((t^3)⁻¹ - t⁻¹) * Real.exp (-(t^2)/2)) atTop (nhds 0) := by
  have h1 : Tendsto (fun t : ℝ => (t^3)⁻¹ - t⁻¹) atTop (nhds 0) := by
    have ha : Tendsto (fun t : ℝ => (t^3)⁻¹) atTop (nhds 0) :=
      (tendsto_pow_atTop (by norm_num : 3 ≠ 0)).inv_tendsto_atTop
    have hb : Tendsto (fun t : ℝ => t⁻¹) atTop (nhds 0) := tendsto_inv_atTop_zero
    simpa using ha.sub hb
  have h3 : Tendsto (fun t : ℝ => Real.exp (-(t^2)/2)) atTop (nhds 0) := by
    have h1' : Tendsto (fun t : ℝ => t^2/2) atTop atTop :=
      (tendsto_pow_atTop (by norm_num : 2 ≠ 0)).atTop_div_const (by norm_num)
    have h2' : Tendsto (fun t : ℝ => -(t^2)/2) atTop atBot := by
      simpa [neg_div] using tendsto_neg_atBot_iff.mpr h1'
    exact Real.tendsto_exp_atBot.comp h2'
  simpa using h1.mul h3

theorem integrableOn_lowF' :
    IntegrableOn (fun t : ℝ => (1 - 3*(t^4)⁻¹) * Real.exp (-(t^2)/2)) (Ioi 2) := by
  have h2 : IntegrableOn (fun t : ℝ => 3*(t^4)⁻¹ * Real.exp (-(t^2)/2)) (Ioi 2) := by
    apply Integrable.mono' (integrableOn_exp2.const_mul (3/16))
    · apply ContinuousOn.aestronglyMeasurable ?_ measurableSet_Ioi
      apply ContinuousOn.mul
      · apply ContinuousOn.mul continuousOn_const
        apply ContinuousOn.inv₀ (continuousOn_pow 4)
        intro x hx
        have : (2:ℝ) < x := hx
        positivity
      · exact (Real.continuous_exp.comp (by continuity)).continuousOn
    · filter_upwards [ae_restrict_mem measurableSet_Ioi] with x hx
      have hx2 : (2:ℝ) < x := hx
      have ha4 : (0:ℝ) ≤ x^2 - 4 := by nlinarith
      have h16 : (16:ℝ) ≤ x^4 := by nlinarith [mul_nonneg ha4 (by positivity : (0:ℝ) ≤ x^2 + 4)]
      have hpos : (0:ℝ) < x^4 := by positivity
      have hinv : (x^4)⁻¹ ≤ 16⁻¹ := by
        apply inv_anti₀ (by norm_num) h16
      rw [Real.norm_eq_abs, abs_of_nonneg (by positivity)]
      have he := Real.exp_pos (-(x^2)/2)
      calc 3*(x^4)⁻¹ * Real.exp (-(x^2)/2) ≤ 3*16⁻¹ * Real.exp (-(x^2)/2) := by nlinarith
        _ = 3/16 * Real.exp (-(x^2)/2) := by ring
  have heq : (fun t : ℝ => (1 - 3*(t^4)⁻¹) * Real.exp (-(t^2)/2))
      = fun t : ℝ => Real.exp (-(t^2)/2) - 3*(t^4)⁻¹ * Real.exp (-(t^2)/2) := by
    funext t; ring
  rw [heq]
  exact integrableOn_exp2.sub h2

theorem integral_lowF :
    ∫ t in Ioi (2:ℝ), (1 - 3*(t^4)⁻¹) * Real.exp (-(t^2)/2) = 3/8 * Real.exp (-2) := by
  have h := integral_Ioi_of_hasDerivAt_of_tendsto
    ((hasDeriv_lowF (by norm_num : (2:ℝ) ≠ 0)).continuousAt.continuousWithinAt)
    (fun x hx => hasDeriv_lowF (by have : (2:ℝ) < x := hx; positivity))
    integrableOn_lowF' tendsto_lowF
  rw [h]
  norm_num

theorem gaussTail_lb : 3/8 * Real.exp (-2) ≤ gaussTail 2 := by
  have hmono : ∫ t in Ioi (2:ℝ), (1 - 3*(t^4)⁻¹) * Real.exp (-(t^2)/2)
      ≤ ∫ t in Ioi (2:ℝ), Real.exp (-(t^2)/2) := by
    apply setIntegral_mono_on integrableOn_lowF' integrableOn_exp2 measurableSet_Ioi
    intro x hx
    have hx2 : (2:ℝ) < x := hx
    have hpos : (0:ℝ) < x^4 := by positivity
    have he := Real.exp_pos (-(x^2)/2)
    have hi : (0:ℝ) < (x^4)⁻¹ := by positivity
    nlinarith
  calc 3/8 * Real.exp (-2) = ∫ t in Ioi (2:ℝ), (1 - 3*(t^4)⁻¹) * Real.exp (-(t^2)/2) :=
        integral_lowF.symm
    _ ≤ gaussTail 2 := hmono

theorem normSF_eq (z : ℝ) : normSF z = gaussTail z / Real.sqrt (2*Real.pi) :=
  integral_div _ _

theorem exp2_lt : Real.exp 2 < 7.39 := by
  have h := Real.exp_one_lt_d9
  have h2 : Real.exp 2 = Real.exp 1 * Real.exp 1 := by
    rw [← Real.exp_add]; norm_num
  have h0 := Real.exp_pos 1
  nlinarith

theorem exp2_gt : (7.38:ℝ) < Real.exp 2 := by
  have h := Real.exp_one_gt_d9
  have h2 : Real.exp 2 = Real.exp 1 * Real.exp 1 := by
    rw [← Real.exp_add]; norm_num
  nlinarith

theorem fallback_bounds :
    5/4 < assocMlog10pFallback 2 1 ∧ assocMlog10pFallback 2 1 < 3/2 := by
  have hπ0 : (0:ℝ) < Real.pi := Real.pi_pos
  set s := Real.sqrt (2*Real.pi) with hsdef
  have hs0 : 0 < s := Real.sqrt_pos.mpr (by positivity)
  have hs2 : s^2 = 2*Real.pi := Real.sq_sqrt (by positivity)
  have hsl : (2.5:ℝ) < s := by nlinarith [Real.pi_gt_d2, hs2, hs0]
  have hsu : s < (2.51:ℝ) := by nlinarith [Real.pi_lt_d2, hs2, hs0]
  -- rational bounds on exp (-2)
  have he0 := Real.exp_pos 2
  have hen : Real.exp (-2) = (Real.exp 2)⁻¹ := by rw [Real.exp_neg]
  have hei : Real.exp 2 * (Real.exp 2)⁻¹ = 1 := mul_inv_cancel₀ (ne_of_gt he0)
  have heinv0 : (0:ℝ) < (Real.exp 2)⁻¹ := by positivity
  have hel : (0.135:ℝ) ≤ Real.exp (-2) := by
    rw [hen]; nlinarith [exp2_lt, hei, heinv0]
  have heu : Real.exp (-2) ≤ (0.136:ℝ) := by
    rw [hen]; nlinarith [exp2_gt, hei, heinv0]
  -- rational bounds on gaussTail 2
  have hGl : (0.0506:ℝ) ≤ gaussTail 2 := by nlinarith [gaussTail_lb, hel]
  have hGu : gaussTail 2 ≤ (0.068:ℝ) := by nlinarith [gaussTail_ub, heu]
  have hGpos : (0:ℝ) < gaussTail 2 := by linarith
  have hS : normSF 2 = gaussTail 2 / s := normSF_eq 2
  have hSpos : 0 < normSF 2 := by rw [hS]; positivity
  set B := 2 * normSF 2 with hBdef
  have hBpos : 0 < B := by positivity
  have hBs : B * s = 2 * gaussTail 2 := by
    rw [hBdef, hS]; field_simp
  have hBl : (0.0403:ℝ) ≤ B := by nlinarith [hBs, hGl, hsu, hBpos]
  have hBu : B ≤ (0.0544:ℝ) := by nlinarith [hBs, hGu, hsl, hBpos]
  have h2 : (1/1000:ℝ) < B^2 := by
    have h := pow_le_pow_left₀ (by norm_num : (0:ℝ) ≤ 0.0403) hBl 2
    have hn : (1/1000:ℝ) < (0.0403:ℝ)^2 := by norm_num
    linarith
  have h4 : B^4 < (1/100000:ℝ) := by
    have hb2 : B^2 ≤ (0.0544:ℝ)^2 := pow_le_pow_left₀ (le_of_lt hBpos) hBu 2
    have hb4 : B^4 ≤ ((0.0544:ℝ)^2)^2 := by
      have h := pow_le_pow_left₀ (sq_nonneg B) hb2 2
      calc B^4 = (B^2)^2 := by ring
        _ ≤ ((0.0544:ℝ)^2)^2 := h
    have hn : ((0.0544:ℝ)^2)^2 < 1/100000 := by norm_num
    linarith
  -- log manipulation
  have hlog10 : (0:ℝ) < Real.log 10 := Real.log_pos (by norm_num)
  have hval : assocMlog10pFallback 2 1
      = -(Real.log B) / Real.log 10 := by
    unfold assocMlog10pFallback
    have habs : |(2:ℝ)| / 1 = 2 := by norm_num
    rw [habs, Real.logb]
    have hlB : Real.log B = Real.log 2 + Real.log (normSF 2) :=
      Real.log_mul (by norm_num) (ne_of_gt hSpos)
    rw [hlB]
    field_simp
    ring
  have hup : assocMlog10pFallback 2 1 < 3/2 := by
    have hlt := Real.log_lt_log (by norm_num : (0:ℝ) < 1/1000) h2
    rw [Real.log_pow] at hlt
    have hl1000 : Real.log (1/1000 : ℝ) = -(3 * Real.log 10) := by
      rw [one_div, Real.log_inv]
      have h10 : (1000:ℝ) = 10^3 := by norm_num
      rw [h10, Real.log_pow]
      push_cast; ring
    rw [hl1000] at hlt
    push_cast at hlt
    rw [hval, div_lt_iff₀ hlog10]
    linarith
  have hdn : assocMlog10pFallback 2 1 > 5/4 := by
    have hlt := Real.log_lt_log (by positivity : (0:ℝ) < B^4) h4
    rw [Real.log_pow] at hlt
    have hl1e5 : Real.log (1/100000 : ℝ) = -(5 * Real.log 10) := by
      rw [one_div, Real.log_inv]
      have h10 : (100000:ℝ) = 10^5 := by norm_num
      rw [h10, Real.log_pow]
      push_cast; ring
    rw [hl1e5] at hlt
    push_cast at hlt
    rw [hval, gt_iff_lt, lt_div_iff₀ hlog10]
    linarith
  exact ⟨hdn, hup⟩

theorem parseAssocRowKept_mlogp_inf {K : Type} [LinearOrderedField K]
    (fb : K → K → K) (res : AssocResource) (row : AssocRow K)
    (rec : AssocRecord K) (hs : row.mlog10p = FNum.inf)
    (h : parseAssocRowKept fb res row = some rec) :
    rec.mlog10p = fb rec.beta rec.sebeta := by
  cases hb : row.beta with
  | none => simp [parseAssocRowKept, hb] at h
  | some b =>
    by_cases hig : assocIgnored res row.trait
    · simp [parseAssocRowKept, hb, hig] at h
    · simp only [parseAssocRowKept, hb, hig, Bool.false_eq_true, if_false,
        Option.some.injEq] at h
      subst h
      simp [hs]

theorem parseAssocRow_mlogp_inf {K : Type} [LinearOrderedField K]
    (fb : K → K → K) (res : AssocResource) (variants : Option (List Variant))
    (row : AssocRow K) (rec : AssocRecord K) (hs : row.mlog10p = FNum.inf)
    (h : parseAssocRow fb res variants row = some rec) :
    rec.mlog10p = fb rec.beta rec.sebeta := by
  cases variants with
  | none => exact parseAssocRowKept_mlogp_inf fb res row rec hs h
  | some vs =>
    by_cases hv : assocRowVariant row ∈ vs
    · simp only [parseAssocRow, hv, if_true] at h
      exact parseAssocRowKept_mlogp_inf fb res row rec hs h
    · simp [parseAssocRow, hv] at h

/-- C2 (amended): when the source significance is the missing sentinel, the
produced record's significance is
`mlog10p = −log10(2 · UpperTailNormalSurvival(β / σ in absolute value))`,
exactly the code's fallback formula; but for β = 2.0, σ = 1.0 the recomputed
value lies strictly between 1.25 and 1.5 — numerically ≈ 1.342 — not ≈ 1.646
as claimed (1.646 is the value of the formula without the factor 2). -/
theorem spec_c2_fallback (row : AssocRow ℝ) (res : AssocResource)
    (variants : Option (List Variant)) (rec : AssocRecord ℝ)
    (hsent : row.mlog10p = FNum.inf)
    (hparse : parseAssocRow assocMlog10pFallback res variants row = some rec) :
    rec.mlog10p =
      -(Real.log (normSF (|rec.beta| / rec.sebeta))) / Real.log 10 -
        Real.logb 10 2 ∧
    5/4 < assocMlog10pFallback 2 1 ∧ assocMlog10pFallback 2 1 < 3/2 := by
  refine ⟨?_, (fallback_bounds).1, (fallback_bounds).2⟩
  have h := parseAssocRow_mlogp_inf assocMlog10pFallback res variants row rec
    hsent hparse
  rw [h]
  rfl

/-- C2 counterexample: the recomputed significance at β = 2.0, σ = 1.0 is
more than 0.1 below 1.646, so it is not approximately 1.646 within any
floating tolerance. -/
theorem spec_c2_cex : assocMlog10pFallback 2 1 + 1/10 < 1.646 := by
  have h := (fallback_bounds).2
  norm_num at h ⊢
  linarith

/-- C2 witness: `spec_c2_fallback` applied to a concrete sentinel row with
β = 2, σ = 1, hypotheses discharged by reflexivity. -/
theorem spec_c2_witness :
    (⟨some "1:100:A:T", some false, "A", "DS", "GWAS", "T1",
        assocMlog10pFallback 2 1, 2, 1⟩ : AssocRecord ℝ).mlog10p =
      -(Real.log (normSF
          (|(⟨some "1:100:A:T", some false, "A", "DS", "GWAS", "T1",
              assocMlog10pFallback 2 1, 2, 1⟩ : AssocRecord ℝ).beta| /
            (⟨some "1:100:A:T", some false, "A", "DS", "GWAS", "T1",
              assocMlog10pFallback 2 1, 2, 1⟩ : AssocRecord ℝ).sebeta))) /
          Real.log 10 - Real.logb 10 2 ∧
    5/4 < assocMlog10pFallback 2 1 ∧ assocMlog10pFallback 2 1 < 3/2 :=
  spec_c2_fallback
    ⟨"1", 100, "A", "T", "DS", "GWAS", "T1", some 2, 1, FNum.inf⟩
    ⟨"A", none⟩ none
    ⟨some "1:100:A:T", some false, "A", "DS", "GWAS", "T1",
      assocMlog10pFallback 2 1, 2, 1⟩
    rfl rfl
